import Mathlib

/-!
Shallow embedding of the ResearchGPT PDF-processing pipeline:
`backend/utils/pdf_processor.py`, `backend/agents/search_agent.py`,
`backend/database/neo4j_client.py`, `backend/agents/qa_agent.py`.

Text is modelled as `List Char`, raw bytes as `List Nat`.  Python's
`re.IGNORECASE` case folding is modelled on the ASCII range (the heading and
token literals of the source are all ASCII).
-/

namespace ResearchGPT

/-- Python's `\s` character class (ASCII range), also used by `str.strip()`. -/
def isPySpace (c : Char) : Bool :=
  c == ' ' || c == '\t' || c == '\n' || c == '\r' || c == '\x0b' || c == '\x0c'

/-- ASCII lower-casing, modelling Python's case folding on the ASCII range. -/
def lowerChar (c : Char) : Char :=
  if 'A' ≤ c ∧ c ≤ 'Z' then Char.ofNat (c.toNat + 32) else c

/-- Case-insensitive character comparison (`re.IGNORECASE`). -/
def ciEq (a b : Char) : Bool := lowerChar a == lowerChar b

/-- `ciPrefixOf p s`: the literal `p` matches case-insensitively at the head of `s`. -/
def ciPrefixOf : List Char → List Char → Bool
  | [], _ => true
  | _ :: _, [] => false
  | p :: ps, c :: cs => ciEq p c && ciPrefixOf ps cs

/-- Case-insensitive equality of two character lists. -/
def ciEqList : List Char → List Char → Bool
  | [], [] => true
  | a :: as, b :: bs => ciEq a b && ciEqList as bs
  | _, _ => false

/-- Python `str.strip()`: drop whitespace from both ends. -/
def pyStrip (s : List Char) : List Char :=
  ((s.dropWhile isPySpace).reverse.dropWhile isPySpace).reverse

/-! ### Section segmenter (`PDFProcessor.extract_sections`)

The source compiles the pattern
`(?:^|\n)(Abstract|Introduction|Related Work|Background|Methodology|Method|`
`Approach|Experiment[s]?|Evaluation|Results? (?:and|&) Discussion|Results?|`
`Discussion|Conclusion[s]?|Future Work|References|Appendix)(?:\s|\n|:)`
with `re.IGNORECASE` and runs `re.finditer` over the text.  Python's regex
engine tries alternatives left to right and optional items greedily, so the
capture-group alternation is equivalent to trying the following literal
candidates in this exact order (each case-insensitively), the first one that
is also followed by a `\s`-or-`:` character winning. -/
def headingCandidates : List (List Char) :=
  [ "Abstract".toList, "Introduction".toList, "Related Work".toList,
    "Background".toList, "Methodology".toList, "Method".toList,
    "Approach".toList, "Experiments".toList, "Experiment".toList,
    "Evaluation".toList,
    "Results and Discussion".toList, "Results & Discussion".toList,
    "Result and Discussion".toList, "Result & Discussion".toList,
    "Results".toList, "Result".toList, "Discussion".toList,
    "Conclusions".toList, "Conclusion".toList, "Future Work".toList,
    "References".toList, "Appendix".toList ]

/-- The trailing context `(?:\s|\n|:)` of the section pattern (one character;
`\n` is already contained in `\s`). -/
def isTrailerChar (c : Char) : Bool := isPySpace c || c == ':'

/-- Does the list start with a trailing-context character? -/
def headTrailer : List Char → Bool
  | c :: _ => isTrailerChar c
  | [] => false

/-- Try the heading candidates in order at the head of `s`; on success return
the captured text (original case, as `match.group(1)` does) and the number of
characters consumed (heading plus the one trailing-context character). -/
def tryHeadingIn : List (List Char) → List Char → Option (List Char × Nat)
  | [], _ => none
  | c :: cs, s =>
    if ciPrefixOf c s && headTrailer (s.drop c.length) then
      some (s.take c.length, c.length + 1)
    else tryHeadingIn cs s

def tryHeading (s : List Char) : Option (List Char × Nat) :=
  tryHeadingIn headingCandidates s

/-- The `\n` alternative of the leading context `(?:^|\n)`: consume a
newline, then match a heading with its trailing context. -/
def viaNewline : List Char → Option (List Char × Nat)
  | [] => none
  | c :: rest =>
    if c = '\n' then
      match tryHeading rest with
      | some (g, len) => some (g, len + 1)
      | none => none
    else none

/-- One attempt of the full section pattern at absolute position `p`, where
`s` is the text with its first `p` characters dropped.  `(?:^|\n)` tries `^`
first (which, without `re.MULTILINE`, only matches at absolute position 0)
and then a literal newline.  Returns the captured heading and the total match
length. -/
def sectionMatchAt (p : Nat) (s : List Char) : Option (List Char × Nat) :=
  match (if p = 0 then tryHeading s else none) with
  | some r => some r
  | none => viaNewline s

/-- `re.finditer` of the section pattern: scan left to right, emit
non-overlapping matches `(start position, captured heading)`, resuming after
the end of each match.  Every match consumes at least one character, so a
fuel of `text.length + 1` visits every position. -/
def scanSec (text : List Char) : Nat → Nat → List (Nat × List Char)
  | _, 0 => []
  | p, fuel + 1 =>
    if p > text.length then []
    else
      match sectionMatchAt p (text.drop p) with
      | some (g, len) => (p, g) :: scanSec text (p + len) fuel
      | none => scanSec text (p + 1) fuel

def sectionMatches (text : List Char) : List (Nat × List Char) :=
  scanSec text 0 (text.length + 1)

/-- Python slice `text[p:e]`. -/
def segSlice (text : List Char) (p e : Nat) : List Char :=
  (text.drop p).take (e - p)

/-- For each match, the section content `text[start : next start].strip()`
(end of text for the final match), paired with the captured heading. -/
def sectionSpans (text : List Char) : List (Nat × List Char) → List (List Char × List Char)
  | [] => []
  | (p, g) :: rest =>
    let e := match rest with
      | (q, _) :: _ => q
      | [] => text.length
    (g, pyStrip (segSlice text p e)) :: sectionSpans text rest

/-- Python `dict` assignment `d[k] = v`: replace the value at an existing key
in place, otherwise append the new entry. -/
def dinsert : List (List Char × List Char) → List Char → List Char → List (List Char × List Char)
  | [], k, v => [(k, v)]
  | (k0, v0) :: rest, k, v =>
    if k0 = k then (k, v) :: rest else (k0, v0) :: dinsert rest k v

/-- Build the `sections` dict by successive assignments. -/
def dictOf (l : List (List Char × List Char)) : List (List Char × List Char) :=
  l.foldl (fun d kv => dinsert d kv.1 kv.2) []

/-- `PDFProcessor.extract_sections`: segment the text at recognized headings;
if no heading matched, the whole text is stored under `"Full Text"`. -/
def extract_sections (text : List Char) : List (List Char × List Char) :=
  let secs := dictOf (sectionSpans text (sectionMatches text))
  if secs.isEmpty then [("Full Text".toList, text)] else secs

/-- Dict lookup. -/
def lookupD : List (List Char × List Char) → List Char → Option (List Char)
  | [], _ => none
  | (k0, v0) :: rest, k => if k0 = k then some v0 else lookupD rest k

/-- Number of entries of the dict carrying key `k`. -/
def countKey (d : List (List Char × List Char)) (k : List Char) : Nat :=
  (d.filter (fun kv => decide (kv.1 = k))).length

/-- The stripped span of the LAST match captured as `k`, running from that
match's start to the next match's start (end of text for the final match). -/
def lastSpan (text : List Char) : List (Nat × List Char) → List Char → Option (List Char)
  | [], _ => none
  | (p, g) :: rest, k =>
    let e := match rest with
      | (q, _) :: _ => q
      | [] => text.length
    match lastSpan text rest k with
    | some v => some v
    | none => if g = k then some (pyStrip (segSlice text p e)) else none

/-- `k` is (case-insensitively) one of the heading alternatives of the
section pattern. -/
def isHeadingName (k : List Char) : Bool :=
  headingCandidates.any (fun c => ciEqList k c)

/-! ### Figure/table reference extractor (`PDFProcessor.extract_figures_and_tables`)

The source runs `re.finditer` with the patterns
`(?:Figure|Fig\.?)\s+(\d+)[:\.]?\s*([^\.]+)` and
`Table\s+(\d+)[:\.]?\s*([^\.]+)` (both `re.IGNORECASE`) and emits a record
per match.  The matcher below reproduces Python's greedy-with-backtracking
semantics piece by piece. -/

/-- Python's `\d` on the ASCII range. -/
def digitChar (c : Char) : Bool := '0' ≤ c && c ≤ '9'

/-- Greedy `\s*` followed by `([^\.]+)`: try taking `k` whitespace characters,
from the given count down to zero, then capture a maximal nonempty run of
non-period characters.  Returns consumed length and the capture. -/
def tryK (s3 : List Char) : Nat → Option (Nat × List Char)
  | 0 =>
    let cap := s3.takeWhile (fun c => !(c == '.'))
    if cap.isEmpty then none else some (cap.length, cap)
  | k + 1 =>
    let cap := (s3.drop (k + 1)).takeWhile (fun c => !(c == '.'))
    if cap.isEmpty then tryK s3 k else some (k + 1 + cap.length, cap)

def tryWsCap (s3 : List Char) : Option (Nat × List Char) :=
  tryK s3 (s3.takeWhile isPySpace).length

/-- Greedy `[:\.]?\s*([^\.]+)`: first try consuming a `:` or `.`, and on
failure of the remainder backtrack to not consuming it. -/
def trySepWsCap (s2 : List Char) : Option (Nat × List Char) :=
  match s2 with
  | c :: rest =>
    if c == ':' || c == '.' then
      match tryWsCap rest with
      | some (l, cap) => some (1 + l, cap)
      | none => tryWsCap s2
    else tryWsCap s2
  | [] => none

/-- Greedy `(\d+)[:\.]?\s*([^\.]+)` where `s1` starts with a digit run: try
`d` digits from the maximal run length down to one (digits are themselves
non-period characters, so the tail can steal them).  Returns consumed
length, the digit capture and the caption capture. -/
def tryDigits (s1 : List Char) : Nat → Option (Nat × List Char × List Char)
  | 0 => none
  | d + 1 =>
    match trySepWsCap (s1.drop (d + 1)) with
    | some (l2, cap) => some (d + 1 + l2, s1.take (d + 1), cap)
    | none => tryDigits s1 d

/-- `\s+(\d+)[:\.]?\s*([^\.]+)`: the `\s+` run is forced to be maximal since
`\d` and `\s` are disjoint (giving characters back can never help). -/
def matchNumCap (s : List Char) : Option (Nat × List Char × List Char) :=
  let w := (s.takeWhile isPySpace).length
  if w == 0 then none
  else
    let s1 := s.drop w
    match tryDigits s1 (s1.takeWhile digitChar).length with
    | some (l1, num, cap) => some (w + l1, num, cap)
    | none => none

/-- Try the leading-token alternatives in order (`Figure`, `Fig.`, `Fig` for
the figure pattern; `Table` for the table pattern), backtracking to the next
alternative when the rest of the pattern fails. -/
def tryTokens : List (List Char) → List Char → Option (Nat × List Char × List Char)
  | [], _ => none
  | t :: ts, s =>
    if ciPrefixOf t s then
      match matchNumCap (s.drop t.length) with
      | some (l, num, cap) => some (t.length + l, num, cap)
      | none => tryTokens ts s
    else tryTokens ts s

/-- `(?:Figure|Fig\.?)` expands to these alternatives in Python's
backtracking order (`\.?` is greedy). -/
def figTokens : List (List Char) := ["Figure".toList, "Fig.".toList, "Fig".toList]

def tableTokens : List (List Char) := ["Table".toList]

/-- One figure/table reference record
`{'type': ..., 'number': ..., 'caption': ..., 'text': ...}`. -/
structure FTRef where
  rtype : List Char
  number : List Char
  caption : List Char
  text : List Char
deriving DecidableEq

/-- `re.finditer` for one of the two patterns: scan left to right, emit
non-overlapping matches, resume after each match.  The caption is stored
stripped (`match.group(2).strip()`), `text` is the whole match
(`match.group(0)`). -/
def scanRefs (rtype : List Char) (tokens : List (List Char)) : List Char → Nat → List FTRef
  | _, 0 => []
  | s, fuel + 1 =>
    match tryTokens tokens s with
    | some (len, num, cap) =>
      { rtype := rtype, number := num, caption := pyStrip cap, text := s.take len } ::
        scanRefs rtype tokens (s.drop len) fuel
    | none =>
      match s with
      | [] => []
      | _ :: rest => scanRefs rtype tokens rest fuel

/-- `PDFProcessor.extract_figures_and_tables`: all figure matches (document
order), then all table matches. -/
def extract_figures_and_tables (text : List Char) : List FTRef :=
  scanRefs "figure".toList figTokens text (text.length + 1) ++
    scanRefs "table".toList tableTokens text (text.length + 1)

/-! ### Text extractor (`PDFProcessor.extract_text_from_pdf`)

`pages` is the list of per-page texts produced by `PyPDF2` when the document
parses and every `page.extract_text()` call succeeds (the claims only speak
about this success case; any exception makes the function return `None`).
The loop is `text = ""` followed by `text += page.extract_text() + "\n\n"`
for every page in order. -/

def pageSep : List Char := ['\n', '\n']

def extract_text_from_pdf (pages : List (List Char)) : List Char :=
  pages.foldl (fun acc p => acc ++ p ++ pageSep) []

/-- Concatenation of each page's text followed by the double-newline
separator, in page order. -/
def joinPages : List (List Char) → List Char
  | [] => []
  | p :: ps => p ++ pageSep ++ joinPages ps

/-- Number of non-overlapping occurrences of the double newline `"\n\n"` in a
character list (left-to-right scan). -/
def countSep : List Char → Nat
  | [] => 0
  | [_] => 0
  | a :: b :: rest =>
    if a = '\n' ∧ b = '\n' then countSep rest + 1 else countSep (b :: rest)

/-! ### Document fetcher (`PDFProcessor.download_pdf`)

The transport call `requests.get(url, timeout=30)` is modelled as an oracle
outcome: either the call raised, or it returned a response with a final
status code, a `Content-Type` header value (`''` when absent) and a byte
body.  `response.raise_for_status()` raises exactly for status codes
400–599; the raise is caught by the surrounding `except` and turned into
`None`. -/

inductive HttpOutcome where
  | transportError : HttpOutcome
  | response (status : Nat) (contentType : List Char) (body : List Nat) : HttpOutcome
deriving DecidableEq

def pdfMime : List Char := "application/pdf".toList

def dotPdf : List Char := ".pdf".toList

/-- Python's `needle in haystack` on strings (case-sensitive substring). -/
def hasSubstr (n : List Char) : List Char → Bool
  | [] => n.isEmpty
  | c :: rest => List.isPrefixOf n (c :: rest) || hasSubstr n rest

/-- Python's `s.endswith(n)` (case-sensitive suffix). -/
def hasSuffix (n s : List Char) : Bool :=
  List.isPrefixOf n.reverse s.reverse

/-- `PDFProcessor.download_pdf`: `None` on transport error, error status, or
when `'application/pdf' not in content_type and not
url.lower().endswith('.pdf')`; otherwise the raw body bytes. -/
def download_pdf (url : List Char) (o : HttpOutcome) : Option (List Nat) :=
  match o with
  | HttpOutcome.transportError => none
  | HttpOutcome.response status ctype body =>
    if 400 ≤ status ∧ status < 600 then none
    else if hasSubstr pdfMime ctype = false ∧ hasSuffix dotPdf (url.map lowerChar) = false then
      none
    else some body

/-! ### Pipeline orchestrator (`PDFProcessor.process_pdf`,
`SearchAgent.process_papers`)

The per-paper external world is an environment: the HTTP outcome for the
paper's URL and the `PyPDF2` outcome for the downloaded bytes (`some pages`
when parsing and every per-page extraction succeed, `none` when any step
raises, in which case `extract_text_from_pdf` returns `None`). -/

structure PdfEnv where
  http : HttpOutcome
  pages : Option (List (List Char))
deriving DecidableEq

def extract_text_opt : Option (List (List Char)) → Option (List Char)
  | none => none
  | some pages => some (extract_text_from_pdf pages)

/-- `PDFProcessor.process_pdf`: download, extract (`if not text: return
None` also rejects the empty string), then segment; the result dict holds
`full_text` and `sections`. -/
def process_pdf (url : List Char) (env : PdfEnv) :
    Option (List Char × List (List Char × List Char)) :=
  match download_pdf url env.http with
  | none => none
  | some _ =>
    match extract_text_opt env.pages with
    | none => none
    | some text => if text.isEmpty then none else some (text, extract_sections text)

/-- A paper record: `meta` stands for the opaque metadata fields (title,
authors, ...) the pipeline never touches; `url` is `paper.get("url")`
(`none` when the key is absent). -/
structure Paper where
  meta : List Char
  url : Option (List Char)
  content : Option (List Char)
  sections : Option (List (List Char × List Char))
  figures_tables : Option (List FTRef)
deriving DecidableEq

/-- The loop body of `SearchAgent.process_papers` for one paper: when
content fetching is requested and the url is truthy, run `process_pdf`; on
success set `content`, `sections` and `figures_tables` in place, on failure
leave the record untouched. -/
def process_paper (fetch_content : Bool) (env : PdfEnv) (p : Paper) : Paper :=
  match p.url with
  | none => p
  | some u =>
    if fetch_content && !u.isEmpty then
      match process_pdf u env with
      | none => p
      | some r =>
        { p with content := some r.1, sections := some r.2,
                 figures_tables := some (extract_figures_and_tables r.1) }
    else p

/-- `SearchAgent.process_papers` over a batch, each paper paired with its
external environment. -/
def process_papers (fetch_content : Bool) (batch : List (Paper × PdfEnv)) : List Paper :=
  batch.map (fun pe => process_paper fetch_content pe.2 pe.1)

/-! ### Year derivation (`Neo4jClient.store_paper`)

`store_paper` rewrites `paper_data['year']` from `paper_data['published_date']`:
`datetime.strptime(pd, '%Y-%m-%d')` (CPython: `%Y` is exactly four digits,
`%m` and `%d` one or two digits with range alternations, the whole string
must be consumed, and the resulting date must be valid), else
`int(pd[:4])`, else `None`.  When `published_date` is absent, `None` or
empty, `year` is left untouched. -/

def digitVal (c : Char) : Nat := c.toNat - 48

def isLeap (y : Nat) : Bool := (y % 4 == 0 && y % 100 != 0) || y % 400 == 0

def daysInMonth (y m : Nat) : Nat :=
  if m = 2 then (if isLeap y then 29 else 28)
  else if m = 4 ∨ m = 6 ∨ m = 9 ∨ m = 11 then 30
  else 31

/-- `%m` followed by the literal `-`: alternatives `1[0-2]`, `0[1-9]`,
`[1-9]`, resolved against the dash that must follow. -/
def matchMonthDash : List Char → Option (Nat × List Char)
  | '1' :: c :: '-' :: rest =>
    if '0' ≤ c ∧ c ≤ '2' then some (10 + digitVal c, rest) else none
  | '0' :: c :: '-' :: rest =>
    if '1' ≤ c ∧ c ≤ '9' then some (digitVal c, rest) else none
  | c :: '-' :: rest =>
    if '1' ≤ c ∧ c ≤ '9' then some (digitVal c, rest) else none
  | _ => none

/-- `%d` at end of string: alternatives `3[01]`, `[12]\d`, `0[1-9]`, `[1-9]`,
with no characters allowed to remain. -/
def matchDayEnd : List Char → Option Nat
  | ['3', c] => if c = '0' ∨ c = '1' then some (30 + digitVal c) else none
  | [c1, c2] =>
    if (c1 = '1' ∨ c1 = '2') ∧ digitChar c2 = true then some (digitVal c1 * 10 + digitVal c2)
    else if c1 = '0' ∧ '1' ≤ c2 ∧ c2 ≤ '9' then some (digitVal c2)
    else none
  | [c] => if '1' ≤ c ∧ c ≤ '9' then some (digitVal c) else none
  | _ => none

/-- `datetime.strptime(s, '%Y-%m-%d')`, returning the year of the parsed
date (`datetime` also validates the day against the month and requires year
at least 1). -/
def parseYMD (s : List Char) : Option Nat :=
  match s with
  | y1 :: y2 :: y3 :: y4 :: '-' :: rest =>
    if digitChar y1 && digitChar y2 && digitChar y3 && digitChar y4 then
      let y := digitVal y1 * 1000 + digitVal y2 * 100 + digitVal y3 * 10 + digitVal y4
      match matchMonthDash rest with
      | some (m, rest2) =>
        match matchDayEnd rest2 with
        | some d => if 1 ≤ y ∧ 1 ≤ d ∧ d ≤ daysInMonth y m then some y else none
        | none => none
      | none => none
    else none
  | _ => none

/-- Python `int(s)` on a string: strip whitespace, optional sign, then a
nonempty digit run (digit-group underscores are not modelled; none of the
inputs the pipeline builds contain them). -/
def pyIntDigits (ds : List Char) : Option Nat :=
  if ds.isEmpty then none
  else if ds.all digitChar then some (ds.foldl (fun n c => n * 10 + digitVal c) 0)
  else none

def pyInt (s : List Char) : Option Int :=
  match (s.dropWhile isPySpace).reverse.dropWhile isPySpace |>.reverse with
  | '+' :: ds => (pyIntDigits ds).map Int.ofNat
  | '-' :: ds => (pyIntDigits ds).map (fun n => -(n : Int))
  | ds => (pyIntDigits ds).map Int.ofNat

/-- The year rewrite of `Neo4jClient.store_paper`: `pd` is the
`published_date` value (`none` for an absent key or `None`), `prev` the
record's incoming `year`. -/
def store_paper_year (pd : Option (List Char)) (prev : Option Int) : Option Int :=
  match pd with
  | none => prev
  | some s =>
    if s.isEmpty then prev
    else
      match parseYMD s with
      | some y => some (y : Int)
      | none =>
        match pyInt (s.take 4) with
        | some n => some n
        | none => none

/-! ### Q&A agent (`QAAgent.answer_question`)

The inference collaborator (`QAAgent._ask_llm`, which catches its own
exceptions and always returns a string) is a total function `llm`.  The
result is paired with the number of times the collaborator was invoked. -/

def joinComma : List (List Char) → List Char
  | [] => []
  | [x] => x
  | x :: xs => x ++ ", ".toList ++ joinComma xs

def noPapersMsg : List Char := "No papers provided for reference.".toList

/-- `QAAgent.answer_question`: `{"question": q, "answer": ...}` modelled as a
pair, plus the collaborator invocation count. -/
def answer_question (llm : List Char → List Char) (question : List Char)
    (paper_ids : List (List Char)) : (List Char × List Char) × Nat :=
  match paper_ids with
  | [] => ((question, noPapersMsg), 0)
  | _ :: _ =>
    let prompt := "Answer the question based on papers: ".toList ++ joinComma paper_ids ++
      ".\nQuestion: ".toList ++ question
    ((question, llm prompt), 1)

/-! ### Auxiliary definitions used by the statements below -/

/-- The value of the last entry of `l` carrying key `k` (the value that
survives building a dict from `l` by successive assignments). -/
def lastVal : List (List Char × List Char) → List Char → Option (List Char)
  | [], _ => none
  | (k0, v0) :: rest, k =>
    match lastVal rest k with
    | some v => some v
    | none => if k0 = k then some v0 else none

/-- How many section-pattern matches of `text` captured exactly the heading
surface form `k`. -/
def countMatchesNamed (text : List Char) (k : List Char) : Nat :=
  ((sectionMatches text).filter (fun m => decide (m.2 = k))).length

/-- The sixteen section labels exactly as the specification lists them for
the SectionMap vocabulary ("Abstract, Introduction, Related Work,
Background, Methodology, Method, Approach, Experiments, Evaluation, Results
and Discussion, Results, Discussion, Conclusion, Future Work, References,
Appendix"), stated from the spec's words for comparison with the code's
behaviour. -/
def specSectionLabels : List (List Char) :=
  [ "Abstract".toList, "Introduction".toList, "Related Work".toList,
    "Background".toList, "Methodology".toList, "Method".toList,
    "Approach".toList, "Experiments".toList, "Evaluation".toList,
    "Results and Discussion".toList, "Results".toList, "Discussion".toList,
    "Conclusion".toList, "Future Work".toList, "References".toList,
    "Appendix".toList ]

/-- A paper whose fetch will fail (transport error). -/
def paperA : Paper := ⟨"a".toList, some ("http://h/a".toList), none, none, none⟩

def envFail : PdfEnv := ⟨HttpOutcome.transportError, none⟩

/-- A paper whose fetch and extraction succeed. -/
def paperB : Paper := ⟨"b".toList, some ("http://h/b.pdf".toList), none, none, none⟩

def envOk : PdfEnv :=
  ⟨HttpOutcome.response 200 ("application/pdf".toList) [0], some ["Hello".toList]⟩

/-! ## Theorems -/

/-! ### Helper lemmas about the text extractor -/

theorem foldl_append_eq_joinPages (l : List (List Char)) :
    ∀ init : List Char, l.foldl (fun acc p => acc ++ p ++ pageSep) init = init ++ joinPages l := by
  induction l with
  | nil => intro init; simp [joinPages]
  | cons p ps ih =>
    intro init
    rw [List.foldl_cons, ih, joinPages]
    simp [List.append_assoc]

theorem countSep_cons_of_ne (c : Char) (l : List Char) (h : c ≠ '\n') :
    countSep (c :: l) = countSep l := by
  cases l with
  | nil => simp [countSep]
  | cons d t => simp [countSep, h]

theorem countSep_append_sep (p : List Char) (l : List Char) (h : '\n' ∉ p) :
    countSep (p ++ '\n' :: '\n' :: l) = countSep l + 1 := by
  induction p with
  | nil => simp [countSep]
  | cons c p' ih =>
    simp only [List.mem_cons, not_or] at h
    rw [List.cons_append, countSep_cons_of_ne c _ (fun hc => h.1 hc.symm), ih h.2]

theorem countSep_joinPages (pages : List (List Char)) (h : ∀ p ∈ pages, '\n' ∉ p) :
    countSep (joinPages pages) = pages.length := by
  induction pages with
  | nil => simp [joinPages, countSep]
  | cons p ps ih =>
    have hp : '\n' ∉ p := h p (List.mem_cons_self p ps)
    have : joinPages (p :: ps) = p ++ '\n' :: '\n' :: joinPages ps := by
      simp [joinPages, pageSep]
    rw [this, countSep_append_sep p _ hp, ih (fun q hq => h q (List.mem_cons_of_mem p hq))]
    simp

/-! ### Claim C1 -/

/-- C1 (counterexample): the Text Extractor appends a double newline after
EVERY page, including the last.  For the single page `"a"` the output is
`"a\n\n"` — it contains one double-newline separator, not `N − 1 = 0`, and
differs from the claimed plain concatenation `"a"`. -/
theorem extract_text_trailing_separator :
    extract_text_from_pdf [['a']] = ['a', '\n', '\n']
      ∧ countSep (extract_text_from_pdf [['a']]) = 1
      ∧ extract_text_from_pdf [['a']] ≠ ['a'] := by
  decide

/-- C1 (amended): when every per-page extraction succeeds, the Text
Extractor returns the concatenation, in page order, of each page's text
followed by a double newline — N separators, one after each page (N − 1
between pages plus one trailing), as witnessed by the separator count on
pages free of internal newlines. -/
theorem extract_text_page_separators :
    (∀ pages : List (List Char), extract_text_from_pdf pages = joinPages pages)
      ∧ (∀ pages : List (List Char), (∀ p ∈ pages, '\n' ∉ p) →
          countSep (extract_text_from_pdf pages) = pages.length) := by
  constructor
  · intro pages
    simpa [extract_text_from_pdf] using foldl_append_eq_joinPages pages []
  · intro pages h
    have h1 : extract_text_from_pdf pages = joinPages pages := by
      simpa [extract_text_from_pdf] using foldl_append_eq_joinPages pages []
    rw [h1, countSep_joinPages pages h]

/-- C1 witness: the two-page document `["a", "b"]` has newline-free pages
and its extracted text contains exactly 2 double-newline separators. -/
theorem extract_text_page_separators_witness :
    (∀ p ∈ [['a'], ['b']], '\n' ∉ p)
      ∧ countSep (extract_text_from_pdf [['a'], ['b']]) = 2 :=
  ⟨by decide, extract_text_page_separators.2 [['a'], ['b']] (by decide)⟩

/-! ### Claim C2 -/

/-- C2 (counterexample): on `"Introduction\nfoo\nMethod\nbar"` the
Segmenter does NOT return `{"Introduction": "Introduction\nfoo\n", ...}`:
the second match starts at the newline preceding `"Method"` and the stored
content is `.strip()`ped, so the `"Introduction"` value is
`"Introduction\nfoo"` without the trailing newline. -/
theorem extract_sections_example_counter :
    extract_sections ("Introduction\nfoo\nMethod\nbar".toList) ≠
        [("Introduction".toList, "Introduction\nfoo\n".toList),
         ("Method".toList, "Method\nbar".toList)]
      ∧ lookupD (extract_sections ("Introduction\nfoo\nMethod\nbar".toList))
          ("Introduction".toList) = some ("Introduction\nfoo".toList) := by
  decide

/-- C2 (amended): for `"Introduction\nfoo\nMethod\nbar"` the Segmenter
returns exactly `{"Introduction": "Introduction\nfoo", "Method":
"Method\nbar"}` — each span runs from its match start (which, for a
non-initial heading, is the preceding newline) to the next match's start
(exclusive), the final span to end-of-text, and spans are whitespace
stripped before storage. -/
theorem extract_sections_example :
    extract_sections ("Introduction\nfoo\nMethod\nbar".toList) =
      [("Introduction".toList, "Introduction\nfoo".toList),
       ("Method".toList, "Method\nbar".toList)] := by
  decide

/-! ### Claim C3 -/

/-- C3: on a text with zero recognized heading matches the Segmenter
returns the single entry `{"Full Text": text}`; and for every non-empty
text the returned map is non-empty. -/
theorem extract_sections_no_headings :
    (∀ text : List Char, sectionMatches text = [] →
        extract_sections text = [("Full Text".toList, text)])
      ∧ (∀ text : List Char, text ≠ [] → extract_sections text ≠ []) := by
  constructor
  · intro text h
    simp [extract_sections, h, sectionSpans, dictOf]
  · intro text _
    by_cases hs : (dictOf (sectionSpans text (sectionMatches text))).isEmpty
    · simp [extract_sections, hs]
    · simp only [extract_sections, if_neg hs]
      intro hnil
      rw [hnil] at hs
      exact hs rfl

/-- C3 witness: `"hello world"` has no heading match, yields exactly
`{"Full Text": "hello world"}`, and the result is non-empty. -/
theorem extract_sections_no_headings_witness :
    sectionMatches ("hello world".toList) = []
      ∧ extract_sections ("hello world".toList) =
          [("Full Text".toList, "hello world".toList)]
      ∧ ("hello world".toList ≠ [])
      ∧ extract_sections ("hello world".toList) ≠ [] :=
  ⟨by decide, extract_sections_no_headings.1 _ (by decide), by decide,
    extract_sections_no_headings.2 _ (by decide)⟩

/-! ### Helper lemmas about dict building and section matches -/

theorem lookupD_dinsert (d : List (List Char × List Char)) (k v q : List Char) :
    lookupD (dinsert d k v) q = if k = q then some v else lookupD d q := by
  induction d with
  | nil => simp [dinsert, lookupD]
  | cons kv rest ih =>
    obtain ⟨k0, v0⟩ := kv
    by_cases hk : k0 = k
    · subst hk
      by_cases hq : k0 = q <;> simp [dinsert, lookupD, hq]
    · by_cases hq : k0 = q
      · subst hq
        have hkq : k ≠ k0 := fun he => hk he.symm
        simp [dinsert, lookupD, hk, hkq]
      · simp [dinsert, lookupD, hk, hq, ih]

theorem lookupD_foldl_dinsert (l : List (List Char × List Char)) :
    ∀ (d : List (List Char × List Char)) (k : List Char),
      lookupD (l.foldl (fun d kv => dinsert d kv.1 kv.2) d) k =
        match lastVal l k with
        | some v => some v
        | none => lookupD d k := by
  induction l with
  | nil => intro d k; simp [lastVal]
  | cons kv rest ih =>
    intro d k
    rw [List.foldl_cons, ih (dinsert d kv.1 kv.2) k]
    obtain ⟨k0, v0⟩ := kv
    simp only [lastVal]
    cases hl : lastVal rest k with
    | some v => simp
    | none =>
      simp only [lookupD_dinsert]
      by_cases h : k0 = k <;> simp [h]

theorem lookupD_dictOf (l : List (List Char × List Char)) (k : List Char) :
    lookupD (dictOf l) k = lastVal l k := by
  rw [dictOf, lookupD_foldl_dinsert]
  cases lastVal l k <;> simp [lookupD]

theorem lastVal_sectionSpans (text : List Char) (k : List Char) :
    ∀ ms : List (Nat × List Char),
      lastVal (sectionSpans text ms) k = lastSpan text ms k := by
  intro ms
  induction ms with
  | nil => rfl
  | cons m rest ih =>
    obtain ⟨p, g⟩ := m
    simp only [sectionSpans, lastVal, lastSpan, ih]

theorem mem_dinsert (d : List (List Char × List Char)) (k v : List Char)
    (x : List Char × List Char) (h : x ∈ dinsert d k v) : x = (k, v) ∨ x ∈ d := by
  induction d with
  | nil => simpa [dinsert] using h
  | cons kv rest ih =>
    obtain ⟨k0, v0⟩ := kv
    by_cases hk : k0 = k
    · subst hk
      rw [dinsert, if_pos rfl] at h
      rcases List.mem_cons.mp h with he | hm
      · exact Or.inl he
      · exact Or.inr (List.mem_cons_of_mem _ hm)
    · rw [dinsert, if_neg hk] at h
      rcases List.mem_cons.mp h with he | hm
      · exact Or.inr (he ▸ List.mem_cons_self _ _)
      · rcases ih hm with h1 | h1
        · exact Or.inl h1
        · exact Or.inr (List.mem_cons_of_mem _ h1)

theorem pairwise_dinsert (d : List (List Char × List Char)) (k v : List Char)
    (h : List.Pairwise (fun a b => a.1 ≠ b.1) d) :
    List.Pairwise (fun a b => a.1 ≠ b.1) (dinsert d k v) := by
  induction d with
  | nil => simp [dinsert]
  | cons kv rest ih =>
    obtain ⟨k0, v0⟩ := kv
    rw [List.pairwise_cons] at h
    obtain ⟨hhead, htail⟩ := h
    by_cases hk : k0 = k
    · subst hk
      rw [dinsert, if_pos rfl, List.pairwise_cons]
      exact ⟨hhead, htail⟩
    · rw [dinsert, if_neg hk, List.pairwise_cons]
      refine ⟨?_, ih htail⟩
      intro b hb
      rcases mem_dinsert rest k v b hb with h1 | h1
      · rw [h1]; exact hk
      · exact hhead b h1

theorem pairwise_foldl_dinsert (l : List (List Char × List Char)) :
    ∀ d, List.Pairwise (fun a b => a.1 ≠ b.1) d →
      List.Pairwise (fun a b => a.1 ≠ b.1)
        (l.foldl (fun d kv => dinsert d kv.1 kv.2) d) := by
  induction l with
  | nil => intro d h; exact h
  | cons kv rest ih =>
    intro d h
    rw [List.foldl_cons]
    exact ih _ (pairwise_dinsert d kv.1 kv.2 h)

theorem pairwise_dictOf (l : List (List Char × List Char)) :
    List.Pairwise (fun a b => a.1 ≠ b.1) (dictOf l) :=
  pairwise_foldl_dinsert l [] (by simp)

theorem countKey_zero (d : List (List Char × List Char)) (k : List Char)
    (h : ∀ b ∈ d, b.1 ≠ k) : countKey d k = 0 := by
  have hf : d.filter (fun kv => decide (kv.1 = k)) = [] :=
    List.filter_eq_nil_iff.mpr (fun a ha => by simpa using h a ha)
  rw [countKey, hf]
  rfl

theorem countKey_one (d : List (List Char × List Char)) (k v : List Char)
    (hp : List.Pairwise (fun a b => a.1 ≠ b.1) d) (hl : lookupD d k = some v) :
    countKey d k = 1 := by
  induction d with
  | nil => simp [lookupD] at hl
  | cons kv rest ih =>
    obtain ⟨k0, v0⟩ := kv
    rw [List.pairwise_cons] at hp
    obtain ⟨hhead, htail⟩ := hp
    by_cases hk : k0 = k
    · subst hk
      have h0 : countKey rest k0 = 0 :=
        countKey_zero rest k0 (fun b hb => (hhead b hb).symm)
      rw [countKey, List.filter_cons, if_pos (by simp), List.length_cons]
      rw [countKey] at h0
      omega
    · rw [lookupD, if_neg hk] at hl
      rw [countKey, List.filter_cons, if_neg (by simpa using hk)]
      exact ih htail hl

theorem lastSpan_isSome (text : List Char) (k : List Char) :
    ∀ (ms : List (Nat × List Char)) (p : Nat), (p, k) ∈ ms →
      (lastSpan text ms k).isSome = true := by
  intro ms
  induction ms with
  | nil => intro p h; simp at h
  | cons m rest ih =>
    intro p h
    obtain ⟨p0, g0⟩ := m
    rcases List.mem_cons.mp h with he | hm
    · have hg : g0 = k := (congrArg Prod.snd he).symm
      cases hls : lastSpan text rest k with
      | some v => simp [lastSpan, hls]
      | none => simp [lastSpan, hls, hg]
    · have hsome := ih p hm
      cases hls : lastSpan text rest k with
      | some v => simp [lastSpan, hls]
      | none => rw [hls] at hsome; simp at hsome

theorem ciEq_symm (a b : Char) (h : ciEq a b = true) : ciEq b a = true := by
  simp only [ciEq, beq_iff_eq] at *
  exact h.symm

theorem ciEqList_take (c : List Char) :
    ∀ s, ciPrefixOf c s = true → ciEqList (s.take c.length) c = true := by
  induction c with
  | nil => intro s _; rfl
  | cons a as ih =>
    intro s h
    cases s with
    | nil => simp [ciPrefixOf] at h
    | cons b bs =>
      simp only [ciPrefixOf, Bool.and_eq_true] at h
      obtain ⟨h1, h2⟩ := h
      simp only [List.length_cons, List.take_succ_cons, ciEqList, Bool.and_eq_true]
      exact ⟨ciEq_symm a b h1, ih bs h2⟩

theorem tryHeadingIn_name :
    ∀ (cands : List (List Char)) (s g : List Char) (l : Nat),
      tryHeadingIn cands s = some (g, l) → ∃ c ∈ cands, ciEqList g c = true := by
  intro cands
  induction cands with
  | nil => intro s g l h; simp [tryHeadingIn] at h
  | cons c cs ih =>
    intro s g l h
    by_cases hc : (ciPrefixOf c s && headTrailer (s.drop c.length)) = true
    · rw [tryHeadingIn, if_pos hc] at h
      have hg : s.take c.length = g := congrArg Prod.fst (Option.some.inj h)
      refine ⟨c, List.mem_cons_self c cs, ?_⟩
      rw [← hg]
      exact ciEqList_take c s ((Bool.and_eq_true _ _).mp hc).1
    · rw [tryHeadingIn, if_neg hc] at h
      obtain ⟨c', hc', he⟩ := ih s g l h
      exact ⟨c', List.mem_cons_of_mem c hc', he⟩

theorem tryHeading_name (s g : List Char) (l : Nat)
    (h : tryHeading s = some (g, l)) : isHeadingName g = true := by
  obtain ⟨c, hc, he⟩ := tryHeadingIn_name headingCandidates s g l h
  exact List.any_eq_true.mpr ⟨c, hc, he⟩

theorem viaNewline_name (s g : List Char) (l : Nat)
    (h : viaNewline s = some (g, l)) : isHeadingName g = true := by
  cases s with
  | nil => simp [viaNewline] at h
  | cons c rest =>
    simp only [viaNewline] at h
    by_cases hc : c = '\n'
    · rw [if_pos hc] at h
      cases ht : tryHeading rest with
      | some r =>
        obtain ⟨g0, l0⟩ := r
        rw [ht] at h
        have hg : g0 = g := congrArg Prod.fst (Option.some.inj h)
        exact hg ▸ tryHeading_name rest g0 l0 ht
      | none => rw [ht] at h; simp at h
    · rw [if_neg hc] at h
      simp at h

theorem sectionMatchAt_name (p : Nat) (s g : List Char) (l : Nat)
    (h : sectionMatchAt p s = some (g, l)) : isHeadingName g = true := by
  rw [sectionMatchAt] at h
  by_cases hp : p = 0
  · rw [if_pos hp] at h
    cases ht : tryHeading s with
    | some r =>
      obtain ⟨g0, l0⟩ := r
      rw [ht] at h
      have hg : g0 = g := congrArg Prod.fst (Option.some.inj h)
      exact hg ▸ tryHeading_name s g0 l0 ht
    | none =>
      rw [ht] at h
      exact viaNewline_name s g l h
  · rw [if_neg hp] at h
    exact viaNewline_name s g l h

theorem scanSec_name (text : List Char) :
    ∀ (fuel p q : Nat) (g : List Char),
      (q, g) ∈ scanSec text p fuel → isHeadingName g = true := by
  intro fuel
  induction fuel with
  | zero => intro p q g h; simp [scanSec] at h
  | succ f ih =>
    intro p q g h
    rw [scanSec] at h
    by_cases hp : p > text.length
    · rw [if_pos hp] at h; simp at h
    · rw [if_neg hp] at h
      cases hm : sectionMatchAt p (text.drop p) with
      | some r =>
        obtain ⟨g0, l0⟩ := r
        rw [hm] at h
        rcases List.mem_cons.mp h with he | hm2
        · have hg : g = g0 := congrArg Prod.snd he
          exact hg ▸ sectionMatchAt_name p (text.drop p) g0 l0 hm
        · exact ih (p + l0) q g hm2
      | none =>
        rw [hm] at h
        exact ih (p + 1) q g h

theorem sectionSpans_key (text : List Char) :
    ∀ (ms : List (Nat × List Char)) (k v : List Char),
      (k, v) ∈ sectionSpans text ms → ∃ p, (p, k) ∈ ms := by
  intro ms
  induction ms with
  | nil => intro k v h; simp [sectionSpans] at h
  | cons m rest ih =>
    intro k v h
    obtain ⟨p0, g0⟩ := m
    simp only [sectionSpans] at h
    rcases List.mem_cons.mp h with he | hm
    · have hk : k = g0 := congrArg Prod.fst he
      exact ⟨p0, by rw [hk]; exact List.mem_cons_self _ _⟩
    · obtain ⟨p, hp⟩ := ih k v hm
      exact ⟨p, List.mem_cons_of_mem _ hp⟩

theorem mem_foldl_dinsert (l : List (List Char × List Char)) :
    ∀ (d : List (List Char × List Char)) (x : List Char × List Char),
      x ∈ l.foldl (fun d kv => dinsert d kv.1 kv.2) d →
      x ∈ d ∨ x.1 ∈ l.map Prod.fst := by
  induction l with
  | nil => intro d x h; exact Or.inl h
  | cons kv rest ih =>
    intro d x h
    rw [List.foldl_cons] at h
    rcases ih (dinsert d kv.1 kv.2) x h with h1 | h1
    · rcases mem_dinsert d kv.1 kv.2 x h1 with h2 | h2
      · right
        rw [h2, List.map_cons]
        exact List.mem_cons_self _ _
      · exact Or.inl h2
    · right
      rw [List.map_cons]
      exact List.mem_cons_of_mem _ h1

/-! ### Claim C4 -/

/-- C4 (counterexample): keys preserve the letter-case found in the text,
so `"results x\nResults y"` — two occurrences of the heading `Results`
recognized case-insensitively — produces TWO entries for that heading
(`"results"` and `"Results"`), not one, and the `"results"` entry keeps the
span of the FIRST occurrence. -/
theorem extract_sections_case_sensitive_keys :
    extract_sections ("results x\nResults y".toList) =
        [("results".toList, "results x".toList), ("Results".toList, "Results y".toList)]
      ∧ ((extract_sections ("results x\nResults y".toList)).filter
            (fun kv => ciEqList kv.1 ("Results".toList))).length = 2
      ∧ lookupD (extract_sections ("results x\nResults y".toList)) ("results".toList) =
          some ("results x".toList) := by
  decide

/-- C4 (amended): per heading SURFACE FORM (exact character sequence `k`):
whenever the section pattern captured `k` at least twice, the returned map
has exactly one entry keyed `k`, and its value is the whitespace-stripped
span of the LAST `k`-match, running from that match's start to the next
match's start (end of text for the final match) — later occurrences
overwrite earlier ones.  Occurrences of the same heading differing in
letter-case produce distinct keys and do not overwrite each other. -/
theorem extract_sections_overwrite (text k : List Char)
    (h : 2 ≤ countMatchesNamed text k) :
    countKey (extract_sections text) k = 1
      ∧ lookupD (extract_sections text) k = lastSpan text (sectionMatches text) k := by
  have hne : (sectionMatches text).filter (fun m => decide (m.2 = k)) ≠ [] := by
    intro h0
    rw [countMatchesNamed, h0] at h
    simp at h
  obtain ⟨m, hm⟩ := List.exists_mem_of_ne_nil _ hne
  have hmem := List.mem_filter.mp hm
  have hk : m.2 = k := by simpa using hmem.2
  have hp : (m.1, k) ∈ sectionMatches text := by
    rw [← hk]
    exact hmem.1
  obtain ⟨v, hv⟩ :=
    Option.isSome_iff_exists.mp (lastSpan_isSome text k (sectionMatches text) m.1 hp)
  have hlv : lastVal (sectionSpans text (sectionMatches text)) k = some v := by
    rw [lastVal_sectionSpans]
    exact hv
  have hlook : lookupD (dictOf (sectionSpans text (sectionMatches text))) k = some v := by
    rw [lookupD_dictOf]
    exact hlv
  have hnonempty : (dictOf (sectionSpans text (sectionMatches text))).isEmpty = false := by
    cases hd : dictOf (sectionSpans text (sectionMatches text)) with
    | nil => rw [hd] at hlook; simp [lookupD] at hlook
    | cons a l => rfl
  have hex : extract_sections text = dictOf (sectionSpans text (sectionMatches text)) := by
    simp [extract_sections, hnonempty]
  rw [hex]
  exact ⟨countKey_one _ k v (pairwise_dictOf _) hlook, by rw [hlook, hv]⟩

/-- C4 witness: `"Results a\nResults b"` has two same-case `Results`
matches; the map has exactly one `"Results"` entry, holding the span of the
last occurrence. -/
theorem extract_sections_overwrite_witness :
    2 ≤ countMatchesNamed ("Results a\nResults b".toList) ("Results".toList)
      ∧ countKey (extract_sections ("Results a\nResults b".toList)) ("Results".toList) = 1
      ∧ lookupD (extract_sections ("Results a\nResults b".toList)) ("Results".toList) =
          lastSpan ("Results a\nResults b".toList)
            (sectionMatches ("Results a\nResults b".toList)) ("Results".toList) :=
  ⟨by decide, extract_sections_overwrite ("Results a\nResults b".toList) ("Results".toList) (by decide)⟩

/-! ### Claim C5 -/

/-- C5 (counterexample): the key stores the matched text with its original
case: for `"abstract x"` the single key is `"abstract"`, which is not
`"Full Text"` and not one of the sixteen labels exactly as the
specification lists them. -/
theorem extract_sections_key_not_in_spec_vocabulary :
    extract_sections ("abstract x".toList) = [("abstract".toList, "abstract x".toList)]
      ∧ ¬ ("abstract".toList ∈ ("Full Text".toList :: specSectionLabels)) := by
  decide

/-- C5 (amended): every key of the returned map is either the synthetic key
`"Full Text"` or a case-insensitive variant of one of the pattern's heading
alternatives (the sixteen listed labels plus the singular/ampersand
variants `Experiment`, `Result`, `Result(s) & Discussion`, `Result and
Discussion`, `Conclusions`); the key keeps the letter-case it has in the
text. -/
theorem extract_sections_keys_recognized (text k v : List Char)
    (h : (k, v) ∈ extract_sections text) :
    k = "Full Text".toList ∨ isHeadingName k = true := by
  by_cases hs : (dictOf (sectionSpans text (sectionMatches text))).isEmpty
  · simp only [extract_sections, if_pos hs] at h
    rcases List.mem_cons.mp h with he | hm
    · exact Or.inl (congrArg Prod.fst he)
    · simp at hm
  · simp only [extract_sections, if_neg hs] at h
    rw [dictOf] at h
    rcases mem_foldl_dinsert _ [] (k, v) h with h1 | h1
    · simp at h1
    · obtain ⟨a, ha, hak⟩ := List.mem_map.mp h1
      obtain ⟨k', v'⟩ := a
      obtain ⟨p, hp⟩ := sectionSpans_key text (sectionMatches text) k' v' ha
      right
      have hh := scanSec_name text (text.length + 1) 0 p k' hp
      have hk2 : k' = k := hak
      exact hk2 ▸ hh

/-- C5 witness: for `"Abstract\nhi"` the single entry's key `"Abstract"` is
a recognized heading. -/
theorem extract_sections_keys_recognized_witness :
    (("Abstract".toList, "Abstract\nhi".toList) ∈ extract_sections ("Abstract\nhi".toList))
      ∧ ("Abstract".toList = "Full Text".toList ∨ isHeadingName ("Abstract".toList) = true) :=
  ⟨by decide,
    extract_sections_keys_recognized ("Abstract\nhi".toList) ("Abstract".toList)
      ("Abstract\nhi".toList) (by decide)⟩

/-! ### Claim C6 -/

/-- C6: on `"Figure 1: A plot of accuracy. Some other sentence."` the
Figure/Table Reference Extractor returns exactly one record: a figure with
number `"1"`, caption `"A plot of accuracy"` (trimmed, truncated at the
first period) and raw matched text `"Figure 1: A plot of accuracy"`. -/
theorem extract_figures_example :
    extract_figures_and_tables ("Figure 1: A plot of accuracy. Some other sentence.".toList) =
      [{ rtype := "figure".toList, number := "1".toList,
         caption := "A plot of accuracy".toList,
         text := "Figure 1: A plot of accuracy".toList }] := by
  decide

/-! ### Claim C7 -/

/-- C7: the Document Fetcher returns the failure sentinel (totally, without
raising) on a transport error, on an HTTP error status (400–599, e.g. 404),
and when the Content-Type does not contain `application/pdf` while the
lower-cased URL does not end in `.pdf`; otherwise it returns the raw byte
payload. -/
theorem download_pdf_fails_safely :
    ∀ (url : List Char) (status : Nat) (ctype : List Char) (body : List Nat),
      download_pdf url HttpOutcome.transportError = none
        ∧ (400 ≤ status → status < 600 →
            download_pdf url (HttpOutcome.response status ctype body) = none)
        ∧ (hasSubstr pdfMime ctype = false → hasSuffix dotPdf (url.map lowerChar) = false →
            download_pdf url (HttpOutcome.response status ctype body) = none)
        ∧ (¬ (400 ≤ status ∧ status < 600) →
            (hasSubstr pdfMime ctype = true ∨ hasSuffix dotPdf (url.map lowerChar) = true) →
            download_pdf url (HttpOutcome.response status ctype body) = some body) := by
  intro url status ctype body
  refine ⟨rfl, ?_, ?_, ?_⟩
  · intro h1 h2
    simp [download_pdf, h1, h2]
  · intro h1 h2
    simp [download_pdf, h1, h2]
  · intro h1 h2
    rcases h2 with h | h <;> simp [download_pdf, h1, h]

/-- C7 witness: an HTTP 404, a `text/html` response on a non-`.pdf` URL,
and a successful non-PDF-typed response on a `.PDF` URL (case-insensitive
suffix). -/
theorem download_pdf_fails_safely_witness :
    download_pdf ("http://h/x".toList) (HttpOutcome.response 404 ("application/pdf".toList) [7]) = none
      ∧ download_pdf ("http://h/x".toList) (HttpOutcome.response 200 ("text/html".toList) [7]) = none
      ∧ download_pdf ("http://h/x.PDF".toList) (HttpOutcome.response 200 ("text/html".toList) [7]) = some [7] :=
  ⟨(download_pdf_fails_safely ("http://h/x".toList) 404 ("application/pdf".toList) [7]).2.1
      (by decide) (by decide),
    (download_pdf_fails_safely ("http://h/x".toList) 200 ("text/html".toList) [7]).2.2.1
      (by decide) (by decide),
    (download_pdf_fails_safely ("http://h/x.PDF".toList) 200 ("text/html".toList) [7]).2.2.2
      (by decide) (Or.inr (by decide))⟩

/-! ### Claim C8 -/

/-- C8: processing a batch is per-paper (each record is handled totally and
independently, so one paper's failure never stops the rest); when the
paper's fetch/extraction pipeline fails (`process_pdf` returns the failure
sentinel — in particular whenever the URL download fails) the record is
returned unchanged with no fields added; when it has no URL it is returned
unchanged; and on success `content`, `sections` and `figures_tables` are
populated in place. -/
theorem process_papers_spec :
    ∀ (fc : Bool) (p : Paper) (env : PdfEnv) (rest : List (Paper × PdfEnv)),
      process_papers fc ((p, env) :: rest) = process_paper fc env p :: process_papers fc rest
        ∧ (∀ u, p.url = some u → process_pdf u env = none → process_paper fc env p = p)
        ∧ (p.url = none → process_paper fc env p = p)
        ∧ (∀ u t s, p.url = some u → u ≠ [] → fc = true → process_pdf u env = some (t, s) →
            process_paper fc env p =
              { p with content := some t, sections := some s,
                       figures_tables := some (extract_figures_and_tables t) }) := by
  intro fc p env rest
  refine ⟨rfl, ?_, ?_, ?_⟩
  · intro u hu hnone
    simp [process_paper, hu, hnone]
  · intro hu
    simp [process_paper, hu]
  · intro u t s hu hne hfc hsome
    have hemp : u.isEmpty = false := by
      cases u with
      | nil => exact absurd rfl hne
      | cons c cs => rfl
    simp [process_paper, hu, hfc, hemp, hsome]

/-- C8 witness: a batch of two papers; for the first the transport call
fails and the record comes back unchanged, for the second the pipeline
succeeds and the three fields are populated. -/
theorem process_papers_spec_witness :
    process_papers true [(paperA, envFail), (paperB, envOk)] =
        process_paper true envFail paperA :: process_papers true [(paperB, envOk)]
      ∧ process_paper true envFail paperA = paperA
      ∧ process_paper true envOk paperB =
          { paperB with content := some ("Hello\n\n".toList),
                        sections := some [("Full Text".toList, "Hello\n\n".toList)],
                        figures_tables := some [] } :=
  ⟨(process_papers_spec true paperA envFail [(paperB, envOk)]).1,
    (process_papers_spec true paperA envFail []).2.1 ("http://h/a".toList) rfl rfl,
    ((process_papers_spec true paperB envOk []).2.2.2 ("http://h/b.pdf".toList)
        ("Hello\n\n".toList) [("Full Text".toList, "Hello\n\n".toList)]
        rfl (by decide) rfl (by decide)).trans (by decide)⟩

/-! ### Claim C9 -/

/-- C9: the year rewrite of `store_paper` maps `"2023-05-10"` to 2023 (the
ISO date's year), `"2023"` to 2023 (fallback `int` of the first four
characters), and leaves the year absent when `published_date` is `None` and
no year was present. -/
theorem store_paper_year_spec :
    ∀ prev : Option Int,
      store_paper_year (some ("2023-05-10".toList)) prev = some 2023
        ∧ store_paper_year (some ("2023".toList)) prev = some 2023
        ∧ store_paper_year none none = none := by
  intro prev
  exact ⟨rfl, rfl, rfl⟩

/-! ### Claim C10 -/

/-- C10: with an empty `paper_ids` list, `answer_question` returns the
record `{"question": q, "answer": "No papers provided for reference."}`
with zero invocations of the inference collaborator; in particular the
result does not depend on the collaborator at all. -/
theorem answer_question_empty :
    ∀ (llm llm2 : List Char → List Char) (q : List Char),
      answer_question llm q [] = ((q, noPapersMsg), 0)
        ∧ answer_question llm q [] = answer_question llm2 q [] :=
  fun _ _ _ => ⟨rfl, rfl⟩

end ResearchGPT
